import Mathlib

/-!
Switchboard: iSCSI connector and block-device resolution

A shallow embedding of `iscsi.go` and `switchboard.go`.

* Go strings are modelled as `String` (sequences of Unicode code points), which
  covers the strings that are valid UTF-8; the scan of `GetBlkDevice`, where the
  difference matters, is modelled a second time on arbitrary byte strings.
* A Go `error` is an `Option String`; `none` is `nil`.
* Every `exec.Command(...).CombinedOutput()` call is an event.  The host is an
  `Env`: a function that, given the commands already issued and the command
  being issued, gives the combined output and the error.  Functions that run
  commands take the list of commands issued so far and return the extended list.
* A Go run-time panic (index out of range) is the `none` of an `Option` result.
* Logging (`Trace`, `Info`, `Error`, `fmt.Println`) and `time.Sleep` have no
  effect on results or on the commands issued and are left out.
-/

namespace Switchboard

/-! ## External commands -/

/-- Go `error`: `none` is `nil`, `some msg` an error carrying a message. -/
abbrev GoError := Option String

/-- An external command: the program name and its argument vector. -/
structure Cmd where
  name : String
  args : List String
deriving DecidableEq, Repr

/-- What `CombinedOutput` gives back: the combined output and the error. -/
structure CmdResult where
  out : String
  err : GoError
deriving DecidableEq, Repr

/-- The host: the result of a command, given the commands issued before it. -/
abbrev Env := List Cmd → Cmd → CmdResult

/-- The model of `exec.Command(name, args...).CombinedOutput()`: the command is
appended to the list of issued commands and the host gives the result. -/
def CombinedOutput (env : Env) (tr : List Cmd) (c : Cmd) : CmdResult × List Cmd :=
  (env tr c, tr ++ [c])

/-! ## switchboard.go: stat and waitForPathToExist -/

/-- The command issued by `stat(f)`: `sh -c "stat <f>"`. -/
def statCmd (f : String) : Cmd := ⟨"sh", ["-c", "stat " ++ f]⟩

/-- Source `stat`: runs `sh -c "stat f"`, returns output and error. -/
def stat (env : Env) (tr : List Cmd) (f : String) : (String × GoError) × List Cmd :=
  let r := CombinedOutput env tr (statCmd f)
  ((r.1.out, r.1.err), r.2)

/-- The loop of `waitForPathToExist` with `k` iterations left
(`k = maxRetries - i`). -/
def waitLoop (env : Env) (d : String) : Nat → List Cmd → Bool × List Cmd
  | 0, tr => (false, tr)
  | k + 1, tr =>
    let r := stat env tr d
    if r.1.2 = none then (true, r.2) else waitLoop env d k r.2

/-- Source `waitForPathToExist`: `for i := 0; i < maxRetries; i++`, probing
with `stat` and returning `true` at the first probe without error. -/
def waitForPathToExist (env : Env) (tr : List Cmd) (d : String) (maxRetries : Int) :
    Bool × List Cmd :=
  waitLoop env d maxRetries.toNat tr

/-! ## iscsi.go: the login sequences -/

/-- The common prefix `args` of every node command: `-m node -T tiqn -p portal`. -/
def nodeArgs (tiqn portal : String) : List String :=
  ["-m", "node", "-T", tiqn, "-p", portal]

/-- Node-record creation: `createArgs`. -/
def createCmd (tiqn portal iface : String) : Cmd :=
  ⟨"iscsiadm", nodeArgs tiqn portal ++ ["--interface", iface, "--op", "new"]⟩

/-- Setting the auth method to CHAP: `authMethodArgs`. -/
def authMethodCmd (tiqn portal : String) : Cmd :=
  ⟨"iscsiadm", nodeArgs tiqn portal ++
    ["--op=update", "--name", "node.session.auth.authmethod", "--value=CHAP"]⟩

/-- Setting the CHAP user name: `authUserArgs`. -/
def authUserCmd (tiqn portal username : String) : Cmd :=
  ⟨"iscsiadm", nodeArgs tiqn portal ++
    ["--op=update", "--name", "node.session.auth.username", "--value=" ++ username]⟩

/-- Setting the CHAP password: `authPasswordArgs`. -/
def authPasswordCmd (tiqn portal password : String) : Cmd :=
  ⟨"iscsiadm", nodeArgs tiqn portal ++
    ["--op=update", "--name", "node.session.auth.password", "--value=" ++ password]⟩

/-- The login command: `loginArgs`. -/
def loginCmd (tiqn portal : String) : Cmd :=
  ⟨"iscsiadm", nodeArgs tiqn portal ++ ["--login"]⟩

/-- Source `LoginWithChap`: create the node record, set auth method, user name
and password, then log in; the first failing command ends the sequence. -/
def LoginWithChap (env : Env) (tr : List Cmd) (tiqn portal username password iface : String) :
    GoError × List Cmd :=
  let r1 := CombinedOutput env tr (createCmd tiqn portal iface)
  match r1.1.err with
  | some e => (some e, r1.2)
  | none =>
    let r2 := CombinedOutput env r1.2 (authMethodCmd tiqn portal)
    match r2.1.err with
    | some e => (some e, r2.2)
    | none =>
      let r3 := CombinedOutput env r2.2 (authUserCmd tiqn portal username)
      match r3.1.err with
      | some e => (some e, r3.2)
      | none =>
        let r4 := CombinedOutput env r3.2 (authPasswordCmd tiqn portal password)
        match r4.1.err with
        | some e => (some e, r4.2)
        | none =>
          let r5 := CombinedOutput env r4.2 (loginCmd tiqn portal)
          (r5.1.err, r5.2)

/-- Source `Login`: builds `loginArgs` and runs the login command; the `iface`
parameter is not used by the body. -/
def Login (env : Env) (tr : List Cmd) (tiqn portal _iface : String) : GoError × List Cmd :=
  let r := CombinedOutput env tr (loginCmd tiqn portal)
  (r.1.err, r.2)

/-! ## iscsi.go: Connect -/

/-- Source `iscsiConnector`. -/
structure iscsiConnector where
  InitiatorIQNs : List String
  IFace : String
  AccessGroupID : String
  HostName : String
deriving DecidableEq, Repr

/-- Source `IscsiConnectRequest`; `Lun` is a Go `int`. -/
structure IscsiConnectRequest where
  Portal : String
  AuthMethod : String
  ChapLogin : String
  ChapPassword : String
  TargetIQN : String
  Lun : Int
deriving DecidableEq, Repr

/-- The zero value of `IscsiConnectRequest`, which a failed type assertion
leaves in `r`. -/
def IscsiConnectRequest.zero : IscsiConnectRequest := ⟨"", "", "", "", "", 0⟩

/-- Source `ConnectRequest`.  The dynamically typed `DriverRequest` is `some r`
when it holds an `IscsiConnectRequest` and `none` when it holds anything else. -/
structure ConnectRequest where
  Type_ : String
  DriverRequest : Option IscsiConnectRequest
deriving DecidableEq, Repr

/-- Source `ConnectResponse`; `DriverResponse` is always the empty
`IscsiConnectResponse` and carries no data. -/
structure ConnectResponse where
  Path : String
  MPDevice : String
  BlkDevice : String
deriving DecidableEq, Repr

/-- The model of `strconv.Itoa`: the decimal form, with a leading `-` for a
negative number. -/
def Itoa (n : Int) : String := toString n

/-- The model of `strings.ToLower`, on the ASCII letters.  Its only use is the
comparison with `"chap"`, and no rune outside ASCII lower-cases to one of
`c`, `h`, `a`, `p`. -/
def ToLower (s : String) : String := String.mk (s.data.map Char.toLower)

/-- The device path assigned to `resp.Path` by `Connect`. -/
def devicePath (r : IscsiConnectRequest) : String :=
  "/dev/disk/by-path/ip-" ++ r.Portal ++ "-iscsi-" ++ r.TargetIQN ++ "lun-" ++ Itoa r.Lun

/-- Source `iscsiConnector.Connect`. -/
def Connect (c : iscsiConnector) (env : Env) (tr : List Cmd) (req : ConnectRequest) :
    (ConnectResponse × GoError) × List Cmd :=
  let r := req.DriverRequest.getD IscsiConnectRequest.zero
  let resp : ConnectResponse := ⟨devicePath r, "", ""⟩
  let w := waitForPathToExist env tr resp.Path 0
  if w.1 = true then ((resp, none), w.2)
  else if ToLower r.AuthMethod = "chap" then
    let l := LoginWithChap env w.2 r.TargetIQN r.Portal r.ChapLogin r.ChapPassword c.IFace
    ((resp, none), l.2)
  else
    let l := Login env w.2 r.TargetIQN r.Portal c.IFace
    ((resp, none), l.2)

/-! ## Go string functions used by the parsers -/

/-- The model of `unicode.IsSpace`: the white space of `strings.TrimSpace` and
`strings.Fields`. -/
def isSpace (c : Char) : Bool :=
  let n := c.toNat
  (9 ≤ n && n ≤ 13) || n = 0x20 || n = 0x85 || n = 0xA0 || n = 0x1680 ||
  (0x2000 ≤ n && n ≤ 0x200A) || n = 0x2028 || n = 0x2029 || n = 0x202F ||
  n = 0x205F || n = 0x3000

/-- The model of `strings.Contains(s, sub)`: `sub` occurs in `s` as a
contiguous run.  On valid UTF-8 a run of code points and a run of bytes are the
same thing; `ContainsBytes` below is the search on bytes. -/
def Contains (s sub : String) : Bool := decide (sub.data <:+: s.data)

/-- The model of `strings.TrimSpace`: leading and trailing white space removed. -/
def TrimSpace (s : String) : String :=
  String.mk ((s.data.dropWhile isSpace).reverse.dropWhile isSpace).reverse

/-- Splitting a list of characters at every occurrence of `sep`; an empty input
gives one empty piece. -/
def splitChars (sep : Char) : List Char → List (List Char)
  | [] => [[]]
  | c :: cs =>
    if c = sep then [] :: splitChars sep cs
    else
      match splitChars sep cs with
      | [] => [[c]]
      | h :: t => (c :: h) :: t

/-- The model of `strings.Split(s, sep)` for a separator of one character (the
source splits at `"\n"` and at `"="` only). -/
def Split (s : String) (sep : Char) : List String :=
  (splitChars sep s.data).map String.mk

/-- Scanning for fields: `cur` is the field being read, in reverse. -/
def fieldsChars : List Char → List Char → List (List Char)
  | cur, [] => if cur = [] then [] else [cur.reverse]
  | cur, c :: cs =>
    if isSpace c then
      (if cur = [] then fieldsChars [] cs else cur.reverse :: fieldsChars [] cs)
    else fieldsChars (c :: cur) cs

/-- The model of `strings.Fields`: the maximal runs of non-space characters. -/
def Fields (s : String) : List String :=
  (fieldsChars [] s.data).map String.mk

/-! ## iscsi.go: getInitiators -/

/-- The command run by `getInitiators`. -/
def initiatorCmd : Cmd := ⟨"cat", ["/etc/iscsi/initiatorname.iscsi"]⟩

/-- The loop of `getInitiators` over the lines still to read; `iqns` is the
slice built so far.  `strings.Split(l, "=")[1]` panics when out of range. -/
def getInitiatorsLoop : List String → List String → Option (List String)
  | [], iqns => some iqns
  | l :: ls, iqns =>
    if Contains l "InitiatorName=" then
      match (Split l '=')[1]? with
      | none => none
      | some v => getInitiatorsLoop ls (iqns ++ [v])
    else getInitiatorsLoop ls iqns

/-- Source `getInitiators`. -/
def getInitiators (env : Env) (tr : List Cmd) : Option ((List String × GoError) × List Cmd) :=
  let r := CombinedOutput env tr initiatorCmd
  match r.1.err with
  | some e => some (([], some e), r.2)
  | none =>
    match getInitiatorsLoop (Split r.1.out '\n') [] with
    | none => none
    | some iqns => some ((iqns, none), r.2)

/-! ## switchboard.go: isMultipath and GetBlkDevice -/

/-- The command run by `isMultipath`: `multipath -c d`. -/
def multipathCmd (d : String) : Cmd := ⟨"multipath", ["-c", d]⟩

/-- Source `isMultipath`. -/
def isMultipath (env : Env) (tr : List Cmd) (d : String) : Bool × List Cmd :=
  let r := CombinedOutput env tr (multipathCmd d)
  match r.1.err with
  | some _ => (false, r.2)
  | none =>
    if Contains r.1.out "is a valid multipath device" then (true, r.2) else (false, r.2)

/-- The command `lsscsi -t`. -/
def lsscsiCmd : Cmd := ⟨"lsscsi", ["-t"]⟩

/-- The command `lsblk blkDev -n -o name -r`. -/
def lsblkCmd (blkDev : String) : Cmd := ⟨"lsblk", [blkDev, "-n", "-o", "name", "-r"]⟩

/-- The access `fields[len(fields)-1]`: index `-1` of an empty slice is out of
range and panics. -/
def lastField (fields : List String) : Option String :=
  if fields.length = 0 then none else fields[fields.length - 1]?

/-- The scan of `GetBlkDevice` over the entries still to read; `blkDev` is the
device found so far. -/
def scanEntries (d : String) : List String → String → Option String
  | [], blkDev => some blkDev
  | entry :: rest, blkDev =>
    if Contains entry d then
      match lastField (Fields entry) with
      | none => none
      | some f => scanEntries d rest f
    else scanEntries d rest blkDev

/-- Source `GetBlkDevice`. -/
def GetBlkDevice (env : Env) (tr : List Cmd) (d : String) :
    Option ((String × GoError) × List Cmd) :=
  let r := CombinedOutput env tr lsscsiCmd
  match r.1.err with
  | some e => some (("", some e), r.2)
  | none =>
    match scanEntries d (Split (TrimSpace r.1.out) '\n') "" with
    | none => none
    | some blkDev =>
      if blkDev = "" then
        some (("", some ("unable to find lsscsi output for: " ++ d)), r.2)
      else
        let m := isMultipath env r.2 blkDev
        if m.1 = true then
          let r2 := CombinedOutput env m.2 (lsblkCmd blkDev)
          match r2.1.err with
          | some e => some ((blkDev, some e), r2.2)
          | none =>
            let lines := Split (TrimSpace r2.1.out) '\n'
            if lines.length > 1 then
              match lines[1]? with
              | none => none
              | some mpdev => some (("/dev/mapper/" ++ mpdev, none), r2.2)
            else some ((blkDev, none), r2.2)
        else some ((blkDev, none), m.2)

/-! ## Byte-level model of GetBlkDevice

A Go string is a sequence of bytes that need not be valid UTF-8.
`strings.Contains` and `strings.Split` compare bytes, while `strings.TrimSpace`
and `strings.Fields` decode runes, an invalid byte being the rune `U+FFFD` of
width 1.  The definitions above follow the source on strings that are valid
UTF-8; the definitions below follow it on every byte string. -/

/-- A Go string as bytes. -/
abbrev GoBytes := List UInt8

/-- The bytes of a literal made of ASCII characters. -/
def ascii (s : String) : GoBytes := s.data.map (fun c => UInt8.ofNat c.toNat)

/-- A continuation byte, `0x80` to `0xBF`. -/
def isCont (b : UInt8) : Bool := 0x80 ≤ b.toNat && b.toNat ≤ 0xBF

/-- The valid case of `utf8.DecodeRuneInString`: the rune encoded at the front
and its width, by the first-byte table and accept ranges of `unicode/utf8`; `none`
where Go gives `(RuneError, 1)` or, on the empty string, `(RuneError, 0)`.  The
rune value is written with sums and products in place of masks and shifts. -/
def decodeValid : GoBytes → Option (Nat × Nat)
  | [] => none
  | b0 :: rest =>
    if b0.toNat < 0x80 then some (b0.toNat, 1)
    else if 0xC2 ≤ b0.toNat ∧ b0.toNat ≤ 0xDF then
      match rest with
      | b1 :: _ =>
        if isCont b1 then some ((b0.toNat - 0xC0) * 64 + (b1.toNat - 0x80), 2) else none
      | [] => none
    else if 0xE0 ≤ b0.toNat ∧ b0.toNat ≤ 0xEF then
      match rest with
      | b1 :: b2 :: _ =>
        if (if b0.toNat = 0xE0 then 0xA0 else 0x80) ≤ b1.toNat ∧
            b1.toNat ≤ (if b0.toNat = 0xED then 0x9F else 0xBF) ∧ isCont b2 then
          some ((b0.toNat - 0xE0) * 4096 + (b1.toNat - 0x80) * 64 + (b2.toNat - 0x80), 3)
        else none
      | _ => none
    else if 0xF0 ≤ b0.toNat ∧ b0.toNat ≤ 0xF4 then
      match rest with
      | b1 :: b2 :: b3 :: _ =>
        if (if b0.toNat = 0xF0 then 0x90 else 0x80) ≤ b1.toNat ∧
            b1.toNat ≤ (if b0.toNat = 0xF4 then 0x8F else 0xBF) ∧ isCont b2 ∧ isCont b3 then
          some ((b0.toNat - 0xF0) * 262144 + (b1.toNat - 0x80) * 4096 +
            (b2.toNat - 0x80) * 64 + (b3.toNat - 0x80), 4)
        else none
      | _ => none
    else none

/-- The model of `utf8.DecodeRuneInString`. -/
def DecodeRune (s : GoBytes) : Nat × Nat :=
  match s with
  | [] => (0xFFFD, 0)
  | _ :: _ => (decodeValid s).getD (0xFFFD, 1)

/-- The model of `unicode.IsSpace` on a rune given by its number. -/
def isSpaceRune (n : Nat) : Bool :=
  (9 ≤ n && n ≤ 13) || n = 0x20 || n = 0x85 || n = 0xA0 || n = 0x1680 ||
  (0x2000 ≤ n && n ≤ 0x200A) || n = 0x2028 || n = 0x2029 || n = 0x202F ||
  n = 0x205F || n = 0x3000

/-- The runes of a string as `for _, r := range s` gives them; `fuel` bounds
the number of steps by the length. -/
def runesAux : Nat → GoBytes → List Nat
  | 0, _ => []
  | fuel + 1, s =>
    match s with
    | [] => []
    | _ :: _ => (DecodeRune s).1 :: runesAux fuel (s.drop (DecodeRune s).2)

/-- The runes of a string. -/
def runes (s : GoBytes) : List Nat := runesAux s.length s

/-- The loop of `utf8.ValidString`: every decoding step is a valid one. -/
def validAux : Nat → GoBytes → Bool
  | 0, s => decide (s = [])
  | fuel + 1, s =>
    match s with
    | [] => true
    | _ :: _ =>
      match decodeValid s with
      | none => false
      | some p => validAux fuel (s.drop p.2)

/-- The model of `utf8.ValidString`. -/
def ValidString (s : GoBytes) : Bool := validAux s.length s

/-- The model of `strings.Contains` on bytes. -/
def ContainsBytes (s sub : GoBytes) : Bool := decide (sub <:+: s)

/-- Splitting bytes at every occurrence of the byte `sep`. -/
def splitBytes (sep : UInt8) : GoBytes → List GoBytes
  | [] => [[]]
  | c :: cs =>
    if c = sep then [] :: splitBytes sep cs
    else
      match splitBytes sep cs with
      | [] => [[c]]
      | h :: t => (c :: h) :: t

/-- The scan of `strings.Fields` (through `FieldsFunc` with `unicode.IsSpace`,
with which the ASCII path agrees): `cur` is the field being read, in reverse. -/
def fieldsBytesAux : Nat → GoBytes → GoBytes → List GoBytes
  | 0, cur, _ => if cur = [] then [] else [cur.reverse]
  | fuel + 1, cur, s =>
    match s with
    | [] => if cur = [] then [] else [cur.reverse]
    | _ :: _ =>
      if isSpaceRune (DecodeRune s).1 then
        (if cur = [] then fieldsBytesAux fuel [] (s.drop (DecodeRune s).2)
         else cur.reverse :: fieldsBytesAux fuel [] (s.drop (DecodeRune s).2))
      else
        fieldsBytesAux fuel ((s.take (DecodeRune s).2).reverse ++ cur) (s.drop (DecodeRune s).2)

/-- The model of `strings.Fields` on bytes. -/
def FieldsBytes (s : GoBytes) : List GoBytes := fieldsBytesAux s.length [] s

/-- The loop of `indexFunc(s, unicode.IsSpace, false)` in `TrimLeftFunc`: the
leading white-space runes are dropped. -/
def trimLeftAux : Nat → GoBytes → GoBytes
  | 0, s => s
  | fuel + 1, s =>
    match s with
    | [] => []
    | _ :: _ => if isSpaceRune (DecodeRune s).1 then trimLeftAux fuel (s.drop (DecodeRune s).2) else s

/-- `utf8.RuneStart`: the byte is not a continuation byte. -/
def RuneStart (b : UInt8) : Bool := !isCont b

/-- The backward search of `utf8.DecodeLastRuneInString`: how far before the
last byte the nearest rune start lies, among the three bytes before it;
`before` holds the bytes before the last one, nearest first. -/
def lastRuneStart (before : GoBytes) : Option Nat :=
  match before with
  | [] => none
  | r1 :: rest1 =>
    if RuneStart r1 then some 1
    else
      match rest1 with
      | [] => none
      | r2 :: rest2 =>
        if RuneStart r2 then some 2
        else
          match rest2 with
          | [] => none
          | r3 :: _ => if RuneStart r3 then some 3 else none

/-- The model of `utf8.DecodeLastRuneInString`. -/
def DecodeLastRune (s : GoBytes) : Nat × Nat :=
  match s.reverse with
  | [] => (0xFFFD, 0)
  | b :: before =>
    if b.toNat < 0x80 then (b.toNat, 1)
    else
      match lastRuneStart before with
      | none => (0xFFFD, 1)
      | some k =>
        match decodeValid (s.drop (s.length - (k + 1))) with
        | none => (0xFFFD, 1)
        | some (r, size) => if size = k + 1 then (r, size) else (0xFFFD, 1)

/-- The loop of `lastIndexFunc(s, unicode.IsSpace, false)`: the index of the
last rune that is not white space, `none` for `-1`. -/
def lastIndexNotSpace : Nat → GoBytes → Option Nat
  | 0, _ => none
  | fuel + 1, s =>
    match s with
    | [] => none
    | _ :: _ =>
      if isSpaceRune (DecodeLastRune s).1 then
        lastIndexNotSpace fuel (s.take (s.length - (DecodeLastRune s).2))
      else some (s.length - (DecodeLastRune s).2)

/-- The model of `strings.TrimRightFunc(s, unicode.IsSpace)`. -/
def trimRight (s : GoBytes) : GoBytes :=
  match lastIndexNotSpace s.length s with
  | none => []
  | some i =>
    match s[i]? with
    | none => s.take (i + 1)
    | some b => if 0x80 ≤ b.toNat then s.take (i + (DecodeRune (s.drop i)).2) else s.take (i + 1)

/-- The model of `strings.TrimSpace` on bytes: leading white-space runes are
dropped, then trailing ones (the ASCII loops of the function do the same on
ASCII bytes and hand over to `TrimFunc` and `TrimRightFunc` at the first
other byte). -/
def TrimSpaceBytes (s : GoBytes) : GoBytes := trimRight (trimLeftAux s.length s)

/-- An external command with its arguments as bytes. -/
structure ByteCmd where
  name : GoBytes
  args : List GoBytes
deriving DecidableEq, Repr

/-- The combined output, as bytes, and the error. -/
structure ByteResult where
  out : GoBytes
  err : Option GoBytes
deriving DecidableEq, Repr

/-- The host, with byte strings. -/
abbrev ByteEnv := List ByteCmd → ByteCmd → ByteResult

/-- The command `lsscsi -t`, as bytes. -/
def lsscsiByteCmd : ByteCmd := ⟨ascii "lsscsi", [ascii "-t"]⟩

/-- The access `fields[len(fields)-1]`, on byte strings. -/
def lastFieldBytes (fields : List GoBytes) : Option GoBytes :=
  if fields.length = 0 then none else fields[fields.length - 1]?

/-- The scan of `GetBlkDevice`, on byte strings. -/
def scanEntriesBytes (d : GoBytes) : List GoBytes → GoBytes → Option GoBytes
  | [], blkDev => some blkDev
  | entry :: rest, blkDev =>
    if ContainsBytes entry d then
      match lastFieldBytes (FieldsBytes entry) with
      | none => none
      | some f => scanEntriesBytes d rest f
    else scanEntriesBytes d rest blkDev

/-- Source `isMultipath`, on byte strings. -/
def isMultipathBytes (env : ByteEnv) (tr : List ByteCmd) (d : GoBytes) : Bool × List ByteCmd :=
  let c : ByteCmd := ⟨ascii "multipath", [ascii "-c", d]⟩
  match (env tr c).err with
  | some _ => (false, tr ++ [c])
  | none =>
    if ContainsBytes (env tr c).out (ascii "is a valid multipath device") then (true, tr ++ [c])
    else (false, tr ++ [c])

/-- Source `GetBlkDevice`, on byte strings. -/
def GetBlkDeviceBytes (env : ByteEnv) (tr : List ByteCmd) (d : GoBytes) :
    Option ((GoBytes × Option GoBytes) × List ByteCmd) :=
  let tr1 := tr ++ [lsscsiByteCmd]
  match (env tr lsscsiByteCmd).err with
  | some e => some (([], some e), tr1)
  | none =>
    match scanEntriesBytes d (splitBytes 0x0A (TrimSpaceBytes (env tr lsscsiByteCmd).out)) [] with
    | none => none
    | some blkDev =>
      if blkDev = [] then
        some (([], some (ascii "unable to find lsscsi output for: " ++ d)), tr1)
      else
        let m := isMultipathBytes env tr1 blkDev
        if m.1 = true then
          let c : ByteCmd :=
            ⟨ascii "lsblk", [blkDev, ascii "-n", ascii "-o", ascii "name", ascii "-r"]⟩
          match (env m.2 c).err with
          | some e => some ((blkDev, some e), m.2 ++ [c])
          | none =>
            let lines := splitBytes 0x0A (TrimSpaceBytes (env m.2 c).out)
            if lines.length > 1 then
              match lines[1]? with
              | none => none
              | some mpdev => some ((ascii "/dev/mapper/" ++ mpdev, none), m.2 ++ [c])
            else some ((blkDev, none), m.2 ++ [c])
        else some ((blkDev, none), m.2)

/-- A byte-string host on which `lsscsi -t` succeeds with the given output and
every other command fails. -/
def byteEnvLsscsi (content : GoBytes) : ByteEnv := fun _ c =>
  if c = lsscsiByteCmd then ⟨content, none⟩ else ⟨[], some (ascii "exit status 1")⟩

/-! ## Definitions used to state the properties -/

/-- Whether probe number `i` (counted from 0) of path `d` succeeds: the answer
of the host to `stat` after the `i` probes before it. -/
def probeOk (env : Env) (tr : List Cmd) (d : String) (i : Nat) : Bool :=
  decide ((env (tr ++ List.replicate i (statCmd d)) (statCmd d)).err = none)

/-- The five commands of the CHAP login sequence, in order. -/
def chapCmds (tiqn portal username password iface : String) : List Cmd :=
  [createCmd tiqn portal iface, authMethodCmd tiqn portal, authUserCmd tiqn portal username,
   authPasswordCmd tiqn portal password, loginCmd tiqn portal]

/-- The five-command list of the CHAP login, each argument vector written out:
node-record creation, auth method, user name, password, login. -/
def chapSequence (tiqn portal username password iface : String) : List Cmd :=
  [⟨"iscsiadm", ["-m", "node", "-T", tiqn, "-p", portal, "--interface", iface, "--op", "new"]⟩,
   ⟨"iscsiadm", ["-m", "node", "-T", tiqn, "-p", portal, "--op=update", "--name",
      "node.session.auth.authmethod", "--value=CHAP"]⟩,
   ⟨"iscsiadm", ["-m", "node", "-T", tiqn, "-p", portal, "--op=update", "--name",
      "node.session.auth.username", "--value=" ++ username]⟩,
   ⟨"iscsiadm", ["-m", "node", "-T", tiqn, "-p", portal, "--op=update", "--name",
      "node.session.auth.password", "--value=" ++ password]⟩,
   ⟨"iscsiadm", ["-m", "node", "-T", tiqn, "-p", portal, "--login"]⟩]

/-- A host on which every command succeeds with empty output. -/
def envAllOk : Env := fun _ _ => ⟨"", none⟩

/-- A host on which every command fails. -/
def envAllFail : Env := fun _ _ => ⟨"", some "exit status 1"⟩

/-- A connector with the interface `default`. -/
def connDefault : iscsiConnector := ⟨[], "default", "", ""⟩

/-- The request of the end-to-end scenario, with CHAP. -/
def reqChap : ConnectRequest :=
  ⟨"iscsi", some ⟨"10.0.0.1:3260", "chap", "u", "p", "iqn.test:disk1", 0⟩⟩

/-- The same request without authentication. -/
def reqNoAuth : ConnectRequest :=
  ⟨"iscsi", some ⟨"10.0.0.1:3260", "", "", "", "iqn.test:disk1", 0⟩⟩

/-- The value the source takes from a line: the text between the first `=` of
the line and its next `=`, or the end of the line when there is no other `=`. -/
def valueOf (l : String) : String :=
  String.mk (((l.data.dropWhile (fun c => c != '=')).drop 1).takeWhile (fun c => c != '='))

/-- All the text of a line after its first `=`. -/
def textAfterFirstEq (l : String) : String :=
  String.mk ((l.data.dropWhile (fun c => c != '=')).drop 1)

/-- A host on which every command succeeds with the given output. -/
def envOutput (content : String) : Env := fun _ _ => ⟨content, none⟩

/-- A host on which `lsscsi -t` succeeds with the given output and every other
command fails. -/
def envLsscsi (content : String) : Env := fun _ c =>
  if c = lsscsiCmd then ⟨content, none⟩ else ⟨"", some "exit status 1"⟩

/-- A host with a multipath device: `lsscsi -t` lists `/dev/sdb` for the target,
`multipath -c` confirms it and `lsblk` names the mapper device `mpatha`. -/
def envMultipath : Env := fun _ c =>
  if c = lsscsiCmd then
    ⟨"[0:0:0:0] disk sata: /dev/sda
[1:0:0:0] disk iqn.test:disk1,t,0x1 /dev/sdb 
", none⟩
  else if c.name = "multipath" then ⟨"/dev/sdb is a valid multipath device path", none⟩
  else if c.name = "lsblk" then ⟨"sdb
mpatha
", none⟩
  else ⟨"", some "exit status 1"⟩

/-! ## Lemmas on the string functions -/

theorem Contains_iff (s sub : String) : Contains s sub = true ↔ sub.data <:+: s.data := by
  simp [Contains]

theorem splitChars_ne_nil (sep : Char) (l : List Char) : splitChars sep l ≠ [] := by
  cases l with
  | nil => simp [splitChars]
  | cons c cs =>
    unfold splitChars
    split
    · simp
    · split <;> simp

theorem splitChars_head (sep : Char) (l : List Char) :
    (splitChars sep l)[0]? = some (l.takeWhile (fun c => c != sep)) := by
  induction l with
  | nil => simp [splitChars]
  | cons c cs ih =>
    unfold splitChars
    by_cases h : c = sep
    · simp [h]
    · cases hs : splitChars sep cs with
      | nil => exact absurd hs (splitChars_ne_nil sep cs)
      | cons x t =>
        rw [hs] at ih
        simp at ih
        simp [h, ih]

theorem splitChars_second (sep : Char) (l : List Char) (h : sep ∈ l) :
    (splitChars sep l)[1]? =
      some (((l.dropWhile (fun c => c != sep)).drop 1).takeWhile (fun c => c != sep)) := by
  induction l with
  | nil => simp at h
  | cons c cs ih =>
    unfold splitChars
    by_cases hc : c = sep
    · have := splitChars_head sep cs
      simp [hc, this]
    · have hmem : sep ∈ cs := by
        rcases List.mem_cons.mp h with h1 | h1
        · exact absurd h1.symm hc
        · exact h1
      cases hs : splitChars sep cs with
      | nil => exact absurd hs (splitChars_ne_nil sep cs)
      | cons x t =>
        have ih' := ih hmem
        rw [hs] at ih'
        simp at ih'
        simp [hc, ih']

theorem Split_second (l : String) (sep : Char) (h : sep ∈ l.data) :
    (Split l sep)[1]? =
      some (String.mk
        (((l.data.dropWhile (fun c => c != sep)).drop 1).takeWhile (fun c => c != sep))) := by
  simp [Split, List.getElem?_map, splitChars_second sep l.data h]

theorem key_has_eq (l : String) (h : Contains l "InitiatorName=" = true) : '=' ∈ l.data := by
  rw [Contains_iff] at h
  exact h.subset (by decide)

theorem splitChars_no_sep (sep : Char) (l : List Char) :
    ∀ piece ∈ splitChars sep l, sep ∉ piece := by
  induction l with
  | nil => intro piece hp; simp [splitChars] at hp; subst hp; simp
  | cons c cs ih =>
    intro piece hp
    unfold splitChars at hp
    by_cases hc : c = sep
    · simp only [hc, if_true, List.mem_cons] at hp
      rcases hp with rfl | hp
      · simp
      · exact ih piece hp
    · cases hs : splitChars sep cs with
      | nil => exact absurd hs (splitChars_ne_nil sep cs)
      | cons x t =>
        rw [hs] at ih hp
        simp only [hc, if_false, List.mem_cons] at hp
        rcases hp with rfl | hp
        · have hx := ih x (List.mem_cons_self x t)
          intro hmem
          rcases List.mem_cons.mp hmem with h1 | h1
          · exact hc h1.symm
          · exact hx h1
        · exact ih piece (List.mem_cons_of_mem x hp)

theorem splitChars_piece_within (sep : Char) (l : List Char) :
    ∀ piece ∈ splitChars sep l, piece <:+: l := by
  induction l with
  | nil => intro piece hp; simp [splitChars] at hp; subst hp; exact List.infix_refl []
  | cons c cs ih =>
    intro piece hp
    unfold splitChars at hp
    by_cases hc : c = sep
    · simp only [hc, if_true, List.mem_cons] at hp
      rcases hp with rfl | hp
      · exact List.nil_infix
      · exact (ih piece hp).trans (List.infix_cons (List.infix_refl cs))
    · have hhead := splitChars_head sep cs
      cases hs : splitChars sep cs with
      | nil => exact absurd hs (splitChars_ne_nil sep cs)
      | cons x t =>
        rw [hs] at ih hp hhead
        simp only [hc, if_false, List.mem_cons] at hp
        simp at hhead
        rcases hp with rfl | hp
        · rw [hhead]
          exact ((List.prefix_cons_inj c).mpr (List.takeWhile_prefix _)).isInfix
        · exact (ih piece (List.mem_cons_of_mem x hp)).trans (List.infix_cons (List.infix_refl cs))

theorem prefix_takeWhile (sep : Char) : ∀ d l : List Char, d <+: l → sep ∉ d →
    d <+: l.takeWhile (fun c => c != sep) := by
  intro d
  induction d with
  | nil => intro l _ _; exact List.nil_prefix
  | cons a d ih =>
    intro l hpre hsep
    cases l with
    | nil => simp at hpre
    | cons b l =>
      have hab : a = b := (List.cons_prefix_cons.mp hpre).1
      have hdl : d <+: l := (List.cons_prefix_cons.mp hpre).2
      subst hab
      have ha : a ≠ sep := fun h => hsep (by simp [h])
      have hd : sep ∉ d := fun h => hsep (List.mem_cons_of_mem a h)
      simp only [List.takeWhile_cons, bne_iff_ne, ne_eq, ha, not_false_eq_true, decide_True,
        if_true]
      exact (List.prefix_cons_inj a).mpr (ih l hdl hd)

theorem infix_in_piece (sep : Char) (d : List Char) (hsep : sep ∉ d) : ∀ l : List Char,
    d <:+: l → ∃ piece ∈ splitChars sep l, d <:+: piece := by
  intro l
  induction l with
  | nil =>
    intro h
    have hd : d = [] := List.eq_nil_of_infix_nil h
    subst hd
    exact ⟨[], by simp [splitChars], List.infix_refl []⟩
  | cons c cs ih =>
    intro h
    have hhead := splitChars_head sep (c :: cs)
    rcases List.infix_cons_iff.mp h with hpre | hin
    · have h1 := prefix_takeWhile sep d (c :: cs) hpre hsep
      cases hs : splitChars sep (c :: cs) with
      | nil => exact absurd hs (splitChars_ne_nil sep (c :: cs))
      | cons x t =>
        rw [hs] at hhead
        simp at hhead
        exact ⟨x, List.mem_cons_self x t, hhead ▸ h1.isInfix⟩
    · obtain ⟨piece, hp, hdp⟩ := ih hin
      unfold splitChars
      by_cases hc : c = sep
      · exact ⟨piece, by simp [hc, hp], hdp⟩
      · cases hs : splitChars sep cs with
        | nil => exact absurd hs (splitChars_ne_nil sep cs)
        | cons x t =>
          rw [hs] at hp
          simp only [hc, if_false]
          rcases List.mem_cons.mp hp with rfl | hp
          · exact ⟨c :: piece, List.mem_cons_self _ _, hdp.trans (List.infix_cons (List.infix_refl _))⟩
          · exact ⟨piece, List.mem_cons_of_mem _ hp, hdp⟩

theorem TrimSpace_within (s : String) : (TrimSpace s).data <:+: s.data := by
  unfold TrimSpace
  have h1 : ((s.data.dropWhile isSpace).reverse.dropWhile isSpace).reverse <+:
      s.data.dropWhile isSpace := by
    have := List.dropWhile_suffix isSpace (l := (s.data.dropWhile isSpace).reverse)
    simpa using List.reverse_prefix.mpr this
  exact h1.isInfix.trans (List.dropWhile_suffix isSpace).isInfix

/-- A line of the trimmed output that contains `d` lies within one line of the
untrimmed output. -/
theorem trimmed_line_in_raw_line (out d l : String)
    (hl : l ∈ Split (TrimSpace out) '\n') (hc : Contains l d = true) :
    ∃ l' ∈ Split out '\n', Contains l' d = true := by
  simp only [Split, List.mem_map] at hl
  obtain ⟨piece, hp, rfl⟩ := hl
  rw [Contains_iff] at hc
  have hnosep : '\n' ∉ d.data := fun h => splitChars_no_sep '\n' _ piece hp (hc.subset h)
  have hin : d.data <:+: out.data :=
    hc.trans ((splitChars_piece_within '\n' _ piece hp).trans (TrimSpace_within out))
  obtain ⟨piece', hp', hd'⟩ := infix_in_piece '\n' d.data hnosep out.data hin
  exact ⟨String.mk piece', by simp only [Split, List.mem_map]; exact ⟨piece', hp', rfl⟩,
    by rw [Contains_iff]; exact hd'⟩

theorem fieldsChars_ne_nil : ∀ (l cur : List Char),
    (cur ≠ [] ∨ ∃ c ∈ l, isSpace c = false) → fieldsChars cur l ≠ [] := by
  intro l
  induction l with
  | nil =>
    intro cur h
    rcases h with h | ⟨c, hc, _⟩
    · simp [fieldsChars, h]
    · simp at hc
  | cons a l ih =>
    intro cur h
    unfold fieldsChars
    by_cases ha : isSpace a = true
    · by_cases hcur : cur = []
      · simp only [ha, if_true, hcur]
        apply ih
        right
        rcases h with h | ⟨c, hc, hsp⟩
        · exact absurd hcur h
        · rcases List.mem_cons.mp hc with rfl | hc
          · rw [ha] at hsp; cases hsp
          · exact ⟨c, hc, hsp⟩
      · simp [ha, hcur]
    · simp only [ha, if_false]
      exact ih (a :: cur) (Or.inl (by simp))

theorem fieldsChars_pieces_ne_nil : ∀ (l cur : List Char),
    ∀ f ∈ fieldsChars cur l, f ≠ [] := by
  intro l
  induction l with
  | nil =>
    intro cur f hf
    unfold fieldsChars at hf
    by_cases hcur : cur = []
    · simp [hcur] at hf
    · simp only [hcur, if_false, List.mem_singleton] at hf
      subst hf; simpa using hcur
  | cons a l ih =>
    intro cur f hf
    unfold fieldsChars at hf
    by_cases ha : isSpace a = true
    · by_cases hcur : cur = []
      · simp only [ha, if_true, hcur] at hf
        exact ih [] f hf
      · simp only [ha, if_true, hcur, if_false, List.mem_cons] at hf
        rcases hf with rfl | hf
        · simpa using hcur
        · exact ih [] f hf
    · simp only [ha, if_false] at hf
      exact ih (a :: cur) f hf

/-! ## Properties of waitForPathToExist -/

theorem probeOk_shift (env : Env) (tr : List Cmd) (d : String) (i : Nat) :
    probeOk env (tr ++ [statCmd d]) d i = probeOk env tr d (i + 1) := by
  simp [probeOk, List.replicate_succ]

theorem waitLoop_spec (env : Env) (d : String) (k : Nat) : ∀ tr : List Cmd,
    (∃ i, i < k ∧ probeOk env tr d i = true ∧ (∀ j, j < i → probeOk env tr d j = false) ∧
      waitLoop env d k tr = (true, tr ++ List.replicate (i + 1) (statCmd d))) ∨
    ((∀ j, j < k → probeOk env tr d j = false) ∧
      waitLoop env d k tr = (false, tr ++ List.replicate k (statCmd d))) := by
  induction k with
  | zero => intro tr; right; simp [waitLoop]
  | succ k ih =>
    intro tr
    by_cases h0 : (env tr (statCmd d)).err = none
    · left
      refine ⟨0, Nat.succ_pos k, ?_, ?_, ?_⟩
      · simp [probeOk, h0]
      · intro j hj; omega
      · simp [waitLoop, stat, CombinedOutput, h0]
    · have hstep : waitLoop env d (k + 1) tr = waitLoop env d k (tr ++ [statCmd d]) := by
        simp [waitLoop, stat, CombinedOutput, h0]
      have hp0 : probeOk env tr d 0 = false := by simp [probeOk, h0]
      rcases ih (tr ++ [statCmd d]) with ⟨i, hi, hok, hbefore, hres⟩ | ⟨hall, hres⟩
      · left
        refine ⟨i + 1, by omega, ?_, ?_, ?_⟩
        · rw [← probeOk_shift]; exact hok
        · intro j hj
          cases j with
          | zero => exact hp0
          | succ j => rw [← probeOk_shift]; exact hbefore j (by omega)
        · rw [hstep, hres]; simp [List.replicate_succ]
      · right
        refine ⟨?_, ?_⟩
        · intro j hj
          cases j with
          | zero => exact hp0
          | succ j => rw [← probeOk_shift]; exact hall j (by omega)
        · rw [hstep, hres]; simp [List.replicate_succ]

/-- C5: with the probes of `waitForPathToExist(d, n)` seen as a sequence of
outcomes, where probe `k` (counted from 0) is the first to succeed, the call
makes `min n (k+1)` probes and returns `true` exactly when `k < n`; when none of
the first `n` probes succeeds it makes `n` probes and returns `false`; for
`n ≤ 0` it makes no probe and returns `false`. -/
theorem waitForPathToExist_probes (env : Env) (tr : List Cmd) (d : String) (n : Int) :
    (∀ k, probeOk env tr d k = true → (∀ j, j < k → probeOk env tr d j = false) →
      waitForPathToExist env tr d n =
        (decide (k < n.toNat), tr ++ List.replicate (min n.toNat (k + 1)) (statCmd d))) ∧
    ((∀ j, j < n.toNat → probeOk env tr d j = false) →
      waitForPathToExist env tr d n = (false, tr ++ List.replicate n.toNat (statCmd d))) ∧
    ((waitForPathToExist env tr d n).1 = true ↔ ∃ i, i < n.toNat ∧ probeOk env tr d i = true) ∧
    (n ≤ 0 → waitForPathToExist env tr d n = (false, tr)) := by
  unfold waitForPathToExist
  refine ⟨?_, ?_, ?_, ?_⟩
  · intro k hk hbefore
    rcases waitLoop_spec env d n.toNat tr with ⟨i, hi, hok, hb, hres⟩ | ⟨hall, hres⟩
    · have hik : i = k := by
        rcases Nat.lt_trichotomy i k with h | h | h
        · have := hbefore i h; simp [hok] at this
        · exact h
        · have := hb k h; simp [hk] at this
      subst hik
      rw [hres]
      have h1 : min n.toNat (i + 1) = i + 1 := by omega
      simp [h1, hi]
    · by_cases hkn : k < n.toNat
      · have := hall k hkn; simp [hk] at this
      · rw [hres]
        have h1 : min n.toNat (k + 1) = n.toNat := by omega
        simp [h1, hkn]
  · intro hnone
    rcases waitLoop_spec env d n.toNat tr with ⟨i, hi, hok, _, _⟩ | ⟨_, hres⟩
    · have := hnone i hi; simp [hok] at this
    · exact hres
  · rcases waitLoop_spec env d n.toNat tr with ⟨i, hi, hok, _, hres⟩ | ⟨hall, hres⟩
    · rw [hres]; exact ⟨fun _ => ⟨i, hi, hok⟩, fun _ => rfl⟩
    · rw [hres]
      constructor
      · intro h; cases h
      · rintro ⟨i, hi, hok⟩
        have := hall i hi
        simp [hok] at this
  · intro hn
    have h0 : n.toNat = 0 := by omega
    simp [h0, waitLoop]

theorem waitForPathToExist_probes_witness :
    probeOk envAllOk [] "/dev/sda" 0 = true ∧
    waitForPathToExist envAllOk [] "/dev/sda" 3 = (true, [statCmd "/dev/sda"]) ∧
    waitForPathToExist envAllFail [] "/dev/sda" 2 = (false, [statCmd "/dev/sda", statCmd "/dev/sda"]) ∧
    waitForPathToExist envAllOk [] "/dev/sda" 0 = (false, []) :=
  ⟨by decide,
   by simpa using
     (waitForPathToExist_probes envAllOk [] "/dev/sda" 3).1 0 (by decide) (by intro j hj; omega),
   by simpa [List.replicate] using
     (waitForPathToExist_probes envAllFail [] "/dev/sda" 2).2.1 (by intro j _; rfl),
   by simpa using (waitForPathToExist_probes envAllOk [] "/dev/sda" 0).2.2.2 (by decide)⟩

/-! ## Properties of Connect and of the login sequences -/

theorem waitForPathToExist_zero (env : Env) (tr : List Cmd) (d : String) :
    waitForPathToExist env tr d 0 = (false, tr) := by
  simp [waitForPathToExist, waitLoop]

theorem Connect_response (c : iscsiConnector) (env : Env) (tr : List Cmd) (req : ConnectRequest) :
    (Connect c env tr req).1 =
      (⟨devicePath (req.DriverRequest.getD IscsiConnectRequest.zero), "", ""⟩, none) := by
  unfold Connect
  simp only [waitForPathToExist_zero]
  split
  · rfl
  · split <;> rfl

theorem LoginWithChap_seq_aux (env : Env) (tr : List Cmd)
    (tiqn portal username password iface : String) :
    ∃ k, 1 ≤ k ∧ k ≤ 5 ∧
      (LoginWithChap env tr tiqn portal username password iface).2 =
        tr ++ (chapCmds tiqn portal username password iface).take k := by
  unfold LoginWithChap
  simp only [CombinedOutput]
  split
  · exact ⟨1, by omega, by omega, by simp [chapCmds]⟩
  · split
    · exact ⟨2, by omega, by omega, by simp [chapCmds]⟩
    · split
      · exact ⟨3, by omega, by omega, by simp [chapCmds]⟩
      · split
        · exact ⟨4, by omega, by omega, by simp [chapCmds]⟩
        · exact ⟨5, by omega, by omega, by simp [chapCmds]⟩

/-- C1: the `Path` of the response of `Connect` is
`"/dev/disk/by-path/ip-" ++ portal ++ "-iscsi-" ++ targetIQN ++ "lun-" ++ decimal lun`
whatever the connector, the host and the other request fields are, so two calls
that agree on portal, target IQN and LUN give the same path. -/
theorem Connect_path (c : iscsiConnector) (env : Env) (tr : List Cmd) (ty : String)
    (r : IscsiConnectRequest) :
    (Connect c env tr ⟨ty, some r⟩).1.1.Path =
      "/dev/disk/by-path/ip-" ++ r.Portal ++ "-iscsi-" ++ r.TargetIQN ++ "lun-" ++ Itoa r.Lun ∧
    ∀ (c' : iscsiConnector) (env' : Env) (tr' : List Cmd) (ty' : String)
      (r' : IscsiConnectRequest),
      r'.Portal = r.Portal → r'.TargetIQN = r.TargetIQN → r'.Lun = r.Lun →
      (Connect c' env' tr' ⟨ty', some r'⟩).1.1.Path = (Connect c env tr ⟨ty, some r⟩).1.1.Path := by
  refine ⟨?_, ?_⟩
  · rw [Connect_response]; rfl
  · intro c' env' tr' ty' r' hp ht hl
    rw [Connect_response, Connect_response]
    simp [devicePath, hp, ht, hl]

theorem Connect_path_witness :
    (Connect connDefault envAllFail [] reqChap).1.1.Path =
      "/dev/disk/by-path/ip-10.0.0.1:3260-iscsi-iqn.test:disk1lun-0" ∧
    (Connect ⟨["iqn.host"], "eth0", "g", "h"⟩ envAllOk [lsscsiCmd] reqNoAuth).1.1.Path =
      (Connect connDefault envAllFail [] reqChap).1.1.Path :=
  ⟨(Connect_path connDefault envAllFail [] "iscsi"
      ⟨"10.0.0.1:3260", "chap", "u", "p", "iqn.test:disk1", 0⟩).1,
   (Connect_path connDefault envAllFail [] "iscsi"
      ⟨"10.0.0.1:3260", "chap", "u", "p", "iqn.test:disk1", 0⟩).2
      ⟨["iqn.host"], "eth0", "g", "h"⟩ envAllOk [lsscsiCmd] "iscsi"
      ⟨"10.0.0.1:3260", "", "", "", "iqn.test:disk1", 0⟩ rfl rfl rfl⟩

theorem LoginWithChap_steps (env : Env) (tr : List Cmd)
    (tiqn portal username password iface : String) :
    ∃ k, 1 ≤ k ∧ k ≤ 5 ∧
      (LoginWithChap env tr tiqn portal username password iface).2 =
        tr ++ (chapCmds tiqn portal username password iface).take k ∧
      (∀ i cmd, i + 1 < k → (chapCmds tiqn portal username password iface)[i]? = some cmd →
        (env (tr ++ (chapCmds tiqn portal username password iface).take i) cmd).err = none) ∧
      (∀ cmd, (chapCmds tiqn portal username password iface)[k - 1]? = some cmd →
        (LoginWithChap env tr tiqn portal username password iface).1 =
          (env (tr ++ (chapCmds tiqn portal username password iface).take (k - 1)) cmd).err) ∧
      (k < 5 → (LoginWithChap env tr tiqn portal username password iface).1 ≠ none) := by
  unfold LoginWithChap
  simp only [CombinedOutput]
  cases h1 : (env tr (createCmd tiqn portal iface)).err with
  | some e =>
    refine ⟨1, by omega, by omega, by simp [chapCmds], ?_, ?_, ?_⟩
    · intro i cmd hi; omega
    · intro cmd hc; simp [chapCmds] at hc; subst hc; simp [h1]
    · intro _; simp
  | none =>
    cases h2 : (env (tr ++ [createCmd tiqn portal iface]) (authMethodCmd tiqn portal)).err with
    | some e =>
      refine ⟨2, by omega, by omega, by simp [chapCmds], ?_, ?_, ?_⟩
      · intro i cmd hi hc
        have hi0 : i = 0 := by omega
        subst hi0; simp [chapCmds] at hc; subst hc; simpa using h1
      · intro cmd hc; simp [chapCmds] at hc; subst hc; simp [chapCmds, h2]
      · intro _; simp
    | none =>
      cases h3 : (env (tr ++ [createCmd tiqn portal iface] ++ [authMethodCmd tiqn portal])
          (authUserCmd tiqn portal username)).err with
      | some e =>
        refine ⟨3, by omega, by omega, by simp [chapCmds], ?_, ?_, ?_⟩
        · intro i cmd hi hc
          have hi0 : i = 0 ∨ i = 1 := by omega
          rcases hi0 with rfl | rfl <;> simp [chapCmds] at hc <;> subst hc
          · simpa using h1
          · simpa [chapCmds] using h2
        · intro cmd hc; simp [chapCmds] at hc; subst hc; simpa [chapCmds] using h3.symm
        · intro _; simp
      | none =>
        cases h4 : (env (tr ++ [createCmd tiqn portal iface] ++ [authMethodCmd tiqn portal] ++
            [authUserCmd tiqn portal username]) (authPasswordCmd tiqn portal password)).err with
        | some e =>
          refine ⟨4, by omega, by omega, by simp [chapCmds], ?_, ?_, ?_⟩
          · intro i cmd hi hc
            have hi0 : i = 0 ∨ i = 1 ∨ i = 2 := by omega
            rcases hi0 with rfl | rfl | rfl <;> simp [chapCmds] at hc <;> subst hc
            · simpa using h1
            · simpa [chapCmds] using h2
            · simpa [chapCmds] using h3
          · intro cmd hc; simp [chapCmds] at hc; subst hc; simpa [chapCmds] using h4.symm
          · intro _; simp
        | none =>
          refine ⟨5, by omega, by omega, by simp [chapCmds], ?_, ?_, ?_⟩
          · intro i cmd hi hc
            have hi0 : i = 0 ∨ i = 1 ∨ i = 2 ∨ i = 3 := by omega
            rcases hi0 with rfl | rfl | rfl | rfl <;> simp [chapCmds] at hc <;> subst hc
            · simpa using h1
            · simpa [chapCmds] using h2
            · simpa [chapCmds] using h3
            · simpa [chapCmds] using h4
          · intro cmd hc; simp [chapCmds] at hc; subst hc; simp [chapCmds]
          · intro h; omega

theorem chapSequence_eq (tiqn portal username password iface : String) :
    chapSequence tiqn portal username password iface =
      chapCmds tiqn portal username password iface := rfl

/-- C2: the commands issued by `LoginWithChap` are the first `k` (`1 ≤ k ≤ 5`) of
the five commands
`iscsiadm -m node -T tiqn -p portal --interface iface --op new`,
`iscsiadm -m node -T tiqn -p portal --op=update --name node.session.auth.authmethod --value=CHAP`,
the same with `node.session.auth.username` and `--value=username`,
the same with `node.session.auth.password` and `--value=password`,
`iscsiadm -m node -T tiqn -p portal --login`, in that order; the `k - 1` commands
before the last one issued succeeded, the returned error is the error of the
last one issued, and when fewer than five were issued that error is not nil. -/
theorem LoginWithChap_sequence (env : Env) (tr : List Cmd)
    (tiqn portal username password iface : String) :
    ∃ k, 1 ≤ k ∧ k ≤ 5 ∧
      (LoginWithChap env tr tiqn portal username password iface).2 =
        tr ++ (chapSequence tiqn portal username password iface).take k ∧
      (∀ i cmd, i + 1 < k → (chapSequence tiqn portal username password iface)[i]? = some cmd →
        (env (tr ++ (chapSequence tiqn portal username password iface).take i) cmd).err = none) ∧
      (∀ cmd, (chapSequence tiqn portal username password iface)[k - 1]? = some cmd →
        (LoginWithChap env tr tiqn portal username password iface).1 =
          (env (tr ++ (chapSequence tiqn portal username password iface).take (k - 1)) cmd).err) ∧
      (k < 5 → (LoginWithChap env tr tiqn portal username password iface).1 ≠ none) := by
  rw [chapSequence_eq]
  exact LoginWithChap_steps env tr tiqn portal username password iface

theorem LoginWithChap_sequence_witness :
    ∃ k, 1 ≤ k ∧ k ≤ 5 ∧
      (LoginWithChap envAllOk [] "iqn.test:disk1" "10.0.0.1:3260" "u" "p" "default").2 =
        [] ++ (chapSequence "iqn.test:disk1" "10.0.0.1:3260" "u" "p" "default").take k ∧
      (∀ i cmd, i + 1 < k →
        (chapSequence "iqn.test:disk1" "10.0.0.1:3260" "u" "p" "default")[i]? = some cmd →
        (envAllOk ([] ++ (chapSequence "iqn.test:disk1" "10.0.0.1:3260" "u" "p" "default").take i)
          cmd).err = none) ∧
      (∀ cmd,
        (chapSequence "iqn.test:disk1" "10.0.0.1:3260" "u" "p" "default")[k - 1]? = some cmd →
        (LoginWithChap envAllOk [] "iqn.test:disk1" "10.0.0.1:3260" "u" "p" "default").1 =
          (envAllOk
            ([] ++ (chapSequence "iqn.test:disk1" "10.0.0.1:3260" "u" "p" "default").take (k - 1))
            cmd).err) ∧
      (k < 5 →
        (LoginWithChap envAllOk [] "iqn.test:disk1" "10.0.0.1:3260" "u" "p" "default").1 ≠ none) :=
  LoginWithChap_sequence envAllOk [] "iqn.test:disk1" "10.0.0.1:3260" "u" "p" "default"

/-- C3: `Login` issues the login command and nothing else: on the host where
every command succeeds, `Login("iqn.test:disk1", "10.0.0.1:3260", "default")`
issues exactly `iscsiadm -m node -T iqn.test:disk1 -p 10.0.0.1:3260 --login`,
and the node-record creation command is not among the commands issued. -/
theorem Login_issues_only_login :
    (∀ (env : Env) (tr : List Cmd) (tiqn portal iface : String),
      Login env tr tiqn portal iface =
        ((env tr (loginCmd tiqn portal)).err, tr ++ [loginCmd tiqn portal])) ∧
    Login envAllOk [] "iqn.test:disk1" "10.0.0.1:3260" "default" =
      (none, [⟨"iscsiadm", ["-m", "node", "-T", "iqn.test:disk1", "-p", "10.0.0.1:3260",
        "--login"]⟩]) ∧
    createCmd "iqn.test:disk1" "10.0.0.1:3260" "default" ∉
      (Login envAllOk [] "iqn.test:disk1" "10.0.0.1:3260" "default").2 := by
  refine ⟨?_, ?_, ?_⟩
  · intro env tr tiqn portal iface; rfl
  · decide
  · decide

/-- C4, as stated, fails: on the host where every command fails, the login
command issued by `Connect` for the request without authentication fails, and
`Connect` returns a nil error. -/
theorem Connect_error_counterexample :
    (Connect connDefault envAllFail [] reqNoAuth).2 = [loginCmd "iqn.test:disk1" "10.0.0.1:3260"] ∧
    (envAllFail [] (loginCmd "iqn.test:disk1" "10.0.0.1:3260")).err ≠ none ∧
    (Connect connDefault envAllFail [] reqNoAuth).1.2 = none ∧
    (Connect connDefault envAllFail [] reqChap).2 =
      [createCmd "iqn.test:disk1" "10.0.0.1:3260" "default"] ∧
    (envAllFail [] (createCmd "iqn.test:disk1" "10.0.0.1:3260" "default")).err ≠ none ∧
    (Connect connDefault envAllFail [] reqChap).1.2 = none := by
  decide

/-- C4, amended: `Connect` returns a nil error for every connector, every
request and every outcome of the commands it issues. -/
theorem Connect_error_nil (c : iscsiConnector) (env : Env) (tr : List Cmd)
    (req : ConnectRequest) : (Connect c env tr req).1.2 = none := by
  rw [Connect_response]

/-- C9: `Connect` makes no probe of the device path and runs the login sequence
although a probe would succeed: on the host where every command succeeds, the
`stat` of the device path succeeds, and `Connect` issues the five commands of the
CHAP login sequence and no `stat`. -/
theorem Connect_not_idempotent :
    (∀ (c : iscsiConnector) (env : Env) (tr : List Cmd) (req : ConnectRequest),
      ∃ cmds, (Connect c env tr req).2 = tr ++ cmds ∧ cmds ≠ [] ∧
        ∀ cmd ∈ cmds, cmd.name = "iscsiadm") ∧
    (envAllOk [] (statCmd "/dev/disk/by-path/ip-10.0.0.1:3260-iscsi-iqn.test:disk1lun-0")).err
      = none ∧
    Connect connDefault envAllOk [] reqChap =
      ((⟨"/dev/disk/by-path/ip-10.0.0.1:3260-iscsi-iqn.test:disk1lun-0", "", ""⟩, none),
       [createCmd "iqn.test:disk1" "10.0.0.1:3260" "default",
        authMethodCmd "iqn.test:disk1" "10.0.0.1:3260",
        authUserCmd "iqn.test:disk1" "10.0.0.1:3260" "u",
        authPasswordCmd "iqn.test:disk1" "10.0.0.1:3260" "p",
        loginCmd "iqn.test:disk1" "10.0.0.1:3260"]) := by
  refine ⟨?_, by decide, by decide⟩
  intro c env tr req
  unfold Connect
  simp only [waitForPathToExist_zero]
  split
  · rename_i h; cases h
  · split
    · obtain ⟨k, hk1, _, htr⟩ := LoginWithChap_seq_aux env tr
        (req.DriverRequest.getD IscsiConnectRequest.zero).TargetIQN
        (req.DriverRequest.getD IscsiConnectRequest.zero).Portal
        (req.DriverRequest.getD IscsiConnectRequest.zero).ChapLogin
        (req.DriverRequest.getD IscsiConnectRequest.zero).ChapPassword c.IFace
      refine ⟨_, htr, ?_, ?_⟩
      · intro h
        have := congrArg List.length h
        simp [chapCmds] at this
        omega
      · intro cmd hcmd
        have := List.mem_of_mem_take hcmd
        simp [chapCmds] at this
        rcases this with rfl | rfl | rfl | rfl | rfl <;> rfl
    · exact ⟨[loginCmd _ _], rfl, by simp, by intro cmd hcmd; simp at hcmd; subst hcmd; rfl⟩

/-! ## Properties of getInitiators -/

theorem getInitiatorsLoop_eq (ls : List String) : ∀ iqns : List String,
    getInitiatorsLoop ls iqns =
      some (iqns ++ (ls.filter (fun l => Contains l "InitiatorName=")).map valueOf) := by
  induction ls with
  | nil => intro iqns; simp [getInitiatorsLoop]
  | cons l ls ih =>
    intro iqns
    unfold getInitiatorsLoop
    by_cases h : Contains l "InitiatorName=" = true
    · have h2 := Split_second l '=' (key_has_eq l h)
      simp only [h, if_true, h2, ih, List.filter_cons, List.map_cons]
      simp [valueOf]
    · simp only [h, ih, List.filter_cons]
      simp

/-- C6, as stated, fails: for the file `InitiatorName=iqn.x=y` the source
returns `["iqn.x"]`, while all the text after the first `=` of the line is
`iqn.x=y`. -/
theorem getInitiators_counterexample :
    getInitiators (envOutput "InitiatorName=iqn.x=y\n") [] =
      some ((["iqn.x"], none), [initiatorCmd]) ∧
    ((Split "InitiatorName=iqn.x=y\n" '\n').filter
      (fun l => Contains l "InitiatorName=")).map textAfterFirstEq = ["iqn.x=y"] := by
  decide

/-- C6, amended: when the initiator file is read without error, `getInitiators`
returns no error and the list, in file order, of the values of the lines that
contain `InitiatorName=`, the value of a line being the text between its first
`=` and its next `=` (or the end of the line). -/
theorem getInitiators_values (env : Env) (tr : List Cmd)
    (hread : (env tr initiatorCmd).err = none) :
    getInitiators env tr =
      some ((((Split (env tr initiatorCmd).out '\n').filter
        (fun l => Contains l "InitiatorName=")).map valueOf, none), tr ++ [initiatorCmd]) := by
  unfold getInitiators
  simp only [CombinedOutput, hread, getInitiatorsLoop_eq]
  simp

theorem getInitiators_values_witness :
    (envOutput "# generated\nInitiatorName=iqn.2020-01.com.example:host1\nalias=x\n" []
      initiatorCmd).err = none ∧
    getInitiators (envOutput "# generated\nInitiatorName=iqn.2020-01.com.example:host1\nalias=x\n")
      [] = some ((["iqn.2020-01.com.example:host1"], none), [initiatorCmd]) :=
  ⟨rfl, by
    have h := getInitiators_values
      (envOutput "# generated\nInitiatorName=iqn.2020-01.com.example:host1\nalias=x\n") [] rfl
    rw [h]
    decide⟩

/-! ## Properties of GetBlkDevice -/

theorem lastField_eq_getLast? (fields : List String) : lastField fields = fields.getLast? := by
  unfold lastField
  by_cases h : fields.length = 0
  · have : fields = [] := List.length_eq_zero.mp h
    subst this; simp
  · simp [h, List.getLast?_eq_getElem?]

theorem scanEntries_no_match (d : String) : ∀ (ls : List String) (b : String),
    (∀ e ∈ ls, Contains e d = false) → scanEntries d ls b = some b := by
  intro ls
  induction ls with
  | nil => intro b _; rfl
  | cons e rest ih =>
    intro b h
    unfold scanEntries
    have he : Contains e d = false := h e (List.mem_cons_self e rest)
    simp only [he]
    exact ih b (fun e' he' => h e' (List.mem_cons_of_mem e he'))

theorem scanEntries_last (d entry raw : String) : ∀ (ls : List String) (b : String),
    (∀ e ∈ ls, Contains e d = true → Fields e ≠ []) →
    (ls.filter (fun e => Contains e d)).getLast? = some entry →
    (Fields entry).getLast? = some raw →
    scanEntries d ls b = some raw := by
  intro ls
  induction ls with
  | nil => intro b _ h _; simp at h
  | cons e rest ih =>
    intro b hfields hentry hraw
    have hrest : ∀ e' ∈ rest, Contains e' d = true → Fields e' ≠ [] :=
      fun e' he' => hfields e' (List.mem_cons_of_mem e he')
    unfold scanEntries
    by_cases he : Contains e d = true
    · simp only [he, if_true]
      have hne : Fields e ≠ [] := hfields e (List.mem_cons_self e rest) he
      rw [lastField_eq_getLast?]
      cases hf : (Fields e).getLast? with
      | none => exact absurd (List.getLast?_eq_none_iff.mp hf) hne
      | some f =>
        simp only
        simp only [List.filter_cons, he, if_true] at hentry
        cases hfr : rest.filter (fun e => Contains e d) with
        | nil =>
          rw [hfr] at hentry
          simp at hentry
          subst hentry
          rw [hf] at hraw
          cases hraw
          apply scanEntries_no_match
          intro e' he'
          have := List.filter_eq_nil_iff.mp hfr e' he'
          simpa using this
        | cons x xs =>
          rw [hfr] at hentry
          rw [List.getLast?_cons_cons] at hentry
          exact ih f hrest (by rw [hfr]; exact hentry) hraw
    · have he' : Contains e d = false := by simpa using he
      simp only [he']
      simp only [List.filter_cons, he'] at hentry
      simp only [Bool.false_eq_true, if_false] at hentry
      exact ih b hrest hentry hraw

theorem scanEntries_isSome (d : String) : ∀ (ls : List String) (b : String),
    (∀ e ∈ ls, Contains e d = true → Fields e ≠ []) → ∃ r, scanEntries d ls b = some r := by
  intro ls
  induction ls with
  | nil => intro b _; exact ⟨b, rfl⟩
  | cons e rest ih =>
    intro b hfields
    have hrest : ∀ e' ∈ rest, Contains e' d = true → Fields e' ≠ [] :=
      fun e' he' => hfields e' (List.mem_cons_of_mem e he')
    unfold scanEntries
    by_cases he : Contains e d = true
    · simp only [he, if_true]
      have hne : Fields e ≠ [] := hfields e (List.mem_cons_self e rest) he
      rw [lastField_eq_getLast?]
      cases hf : (Fields e).getLast? with
      | none => exact absurd (List.getLast?_eq_none_iff.mp hf) hne
      | some f => exact ih f hrest
    · have he' : Contains e d = false := by simpa using he
      simp only [he']
      exact ih b hrest

theorem Fields_ne_nil_of_contains (d l : String) (hd : ∃ c ∈ d.data, isSpace c = false)
    (hl : Contains l d = true) : Fields l ≠ [] := by
  obtain ⟨c, hc, hsp⟩ := hd
  rw [Contains_iff] at hl
  have h := fieldsChars_ne_nil l.data [] (Or.inr ⟨c, hl.subset hc, hsp⟩)
  simpa [Fields] using h

theorem field_ne_empty (entry raw : String) (h : (Fields entry).getLast? = some raw) :
    raw ≠ "" := by
  have hmem : raw ∈ Fields entry := List.mem_of_getLast?_eq_some h
  simp only [Fields, List.mem_map] at hmem
  obtain ⟨f, hf, rfl⟩ := hmem
  have := fieldsChars_pieces_ne_nil entry.data [] f hf
  intro hcontra
  apply this
  have := congrArg String.data hcontra
  simpa using this

/-- C7: when `lsscsi -t` runs without error and no line of its output contains
`d` (whether the lines are those of the output or those of the trimmed output,
which the source scans), `GetBlkDevice(d)` returns the empty device with the
error `unable to find lsscsi output for: d`, and `lsscsi` is the only command it
issues. -/
theorem GetBlkDevice_not_found (env : Env) (tr : List Cmd) (d : String)
    (hls : (env tr lsscsiCmd).err = none)
    (hno : (∀ l ∈ Split (env tr lsscsiCmd).out '\n', Contains l d = false) ∨
      (∀ l ∈ Split (TrimSpace (env tr lsscsiCmd).out) '\n', Contains l d = false)) :
    GetBlkDevice env tr d =
      some (("", some ("unable to find lsscsi output for: " ++ d)), tr ++ [lsscsiCmd]) := by
  have htrim : ∀ l ∈ Split (TrimSpace (env tr lsscsiCmd).out) '\n', Contains l d = false := by
    rcases hno with hraw | htrim
    · intro l hl
      by_contra hc
      have hc' : Contains l d = true := by simpa using hc
      obtain ⟨l', hl', hcl'⟩ := trimmed_line_in_raw_line _ d l hl hc'
      rw [hraw l' hl'] at hcl'
      cases hcl'
    · exact htrim
  unfold GetBlkDevice
  simp only [CombinedOutput, hls, scanEntries_no_match d _ "" htrim]
  simp

theorem GetBlkDevice_not_found_witness :
    (envMultipath [] lsscsiCmd).err = none ∧
    GetBlkDevice envMultipath [] "iqn.other:disk9" =
      some (("", some "unable to find lsscsi output for: iqn.other:disk9"), [lsscsiCmd]) :=
  ⟨rfl, by
    have h := GetBlkDevice_not_found envMultipath [] "iqn.other:disk9" rfl (Or.inl (by decide))
    rw [h]
    decide⟩

theorem GetBlkDevice_scanned (env : Env) (tr : List Cmd) (d entry raw : String)
    (hls : (env tr lsscsiCmd).err = none)
    (hfields : ∀ e ∈ Split (TrimSpace (env tr lsscsiCmd).out) '\n',
      Contains e d = true → Fields e ≠ [])
    (hentry : ((Split (TrimSpace (env tr lsscsiCmd).out) '\n').filter
      (fun e => Contains e d)).getLast? = some entry)
    (hraw : (Fields entry).getLast? = some raw) :
    GetBlkDevice env tr d =
      if (isMultipath env (tr ++ [lsscsiCmd]) raw).1 = true then
        match (env (tr ++ [lsscsiCmd, multipathCmd raw]) (lsblkCmd raw)).err with
        | some e => some ((raw, some e), tr ++ [lsscsiCmd, multipathCmd raw, lsblkCmd raw])
        | none =>
          if (Split (TrimSpace
              (env (tr ++ [lsscsiCmd, multipathCmd raw]) (lsblkCmd raw)).out) '\n').length > 1 then
            match (Split (TrimSpace
              (env (tr ++ [lsscsiCmd, multipathCmd raw]) (lsblkCmd raw)).out) '\n')[1]? with
            | none => none
            | some mpdev =>
              some (("/dev/mapper/" ++ mpdev, none),
                tr ++ [lsscsiCmd, multipathCmd raw, lsblkCmd raw])
          else some ((raw, none), tr ++ [lsscsiCmd, multipathCmd raw, lsblkCmd raw])
      else some ((raw, none), tr ++ [lsscsiCmd, multipathCmd raw]) := by
  have hscan := scanEntries_last d entry raw _ "" hfields hentry hraw
  have hne : raw ≠ "" := field_ne_empty entry raw hraw
  have htr : (isMultipath env (tr ++ [lsscsiCmd]) raw).2 = tr ++ [lsscsiCmd, multipathCmd raw] := by
    unfold isMultipath
    simp only [CombinedOutput]
    split
    · simp
    · split <;> simp
  unfold GetBlkDevice
  simp only [CombinedOutput, hls, hscan, hne, if_false, htr]
  simp

/-- C8, as stated, fails: with `d` empty and the `lsscsi` output `a`, empty line,
`b`, every line contains `d`, the last one is `b` and its last field is `b`,
the multipath check fails to run, and `GetBlkDevice` does not return `b`: the
empty line has no field and the index is out of range. -/
theorem GetBlkDevice_counterexample :
    (envLsscsi "a\n\nb" [] lsscsiCmd).err = none ∧
    ((Split (TrimSpace (envLsscsi "a\n\nb" [] lsscsiCmd).out) '\n').filter
      (fun e => Contains e "")).getLast? = some "b" ∧
    (Fields "b").getLast? = some "b" ∧
    (envLsscsi "a\n\nb" [lsscsiCmd] (multipathCmd "b")).err ≠ none ∧
    GetBlkDevice (envLsscsi "a\n\nb") [] "" = none := by
  decide

/-- C8, amended: when `lsscsi -t` runs without error, every line of its trimmed
output that contains `d` has a field, `entry` is the last such line and `raw` its
last field, then: if the multipath check of `raw` runs and confirms, and `lsblk`
runs, `GetBlkDevice(d)` returns `/dev/mapper/` followed by the second line of
the trimmed `lsblk` output when there are two lines or more, and `raw` when
there are fewer, with a nil error; if the multipath check fails to run or does
not confirm, it returns `raw` with a nil error and does not run `lsblk`. -/
theorem GetBlkDevice_resolves (env : Env) (tr : List Cmd) (d entry raw : String)
    (hls : (env tr lsscsiCmd).err = none)
    (hfields : ∀ e ∈ Split (TrimSpace (env tr lsscsiCmd).out) '\n',
      Contains e d = true → Fields e ≠ [])
    (hentry : ((Split (TrimSpace (env tr lsscsiCmd).out) '\n').filter
      (fun e => Contains e d)).getLast? = some entry)
    (hraw : (Fields entry).getLast? = some raw) :
    ((env (tr ++ [lsscsiCmd]) (multipathCmd raw)).err = none →
      Contains (env (tr ++ [lsscsiCmd]) (multipathCmd raw)).out
        "is a valid multipath device" = true →
      (env (tr ++ [lsscsiCmd, multipathCmd raw]) (lsblkCmd raw)).err = none →
      (2 ≤ (Split (TrimSpace
          (env (tr ++ [lsscsiCmd, multipathCmd raw]) (lsblkCmd raw)).out) '\n').length →
        ∃ second, (Split (TrimSpace
            (env (tr ++ [lsscsiCmd, multipathCmd raw]) (lsblkCmd raw)).out) '\n')[1]? =
            some second ∧
          GetBlkDevice env tr d =
            some (("/dev/mapper/" ++ second, none),
              tr ++ [lsscsiCmd, multipathCmd raw, lsblkCmd raw])) ∧
      ((Split (TrimSpace
          (env (tr ++ [lsscsiCmd, multipathCmd raw]) (lsblkCmd raw)).out) '\n').length < 2 →
        GetBlkDevice env tr d =
          some ((raw, none), tr ++ [lsscsiCmd, multipathCmd raw, lsblkCmd raw]))) ∧
    (((env (tr ++ [lsscsiCmd]) (multipathCmd raw)).err ≠ none ∨
      Contains (env (tr ++ [lsscsiCmd]) (multipathCmd raw)).out
        "is a valid multipath device" = false) →
      GetBlkDevice env tr d = some ((raw, none), tr ++ [lsscsiCmd, multipathCmd raw])) := by
  have hmain := GetBlkDevice_scanned env tr d entry raw hls hfields hentry hraw
  refine ⟨?_, ?_⟩
  · intro hmp hvalid hblk
    have hm : (isMultipath env (tr ++ [lsscsiCmd]) raw).1 = true := by
      simp [isMultipath, CombinedOutput, hmp, hvalid]
    rw [hm] at hmain
    simp only [if_true, hblk] at hmain
    refine ⟨?_, ?_⟩
    · intro hlen
      have hlt : 1 < (Split (TrimSpace
          (env (tr ++ [lsscsiCmd, multipathCmd raw]) (lsblkCmd raw)).out) '\n').length := hlen
      refine ⟨(Split (TrimSpace
          (env (tr ++ [lsscsiCmd, multipathCmd raw]) (lsblkCmd raw)).out) '\n')[1], ?_, ?_⟩
      · exact List.getElem?_eq_getElem hlt
      · rw [hmain]
        simp [hlt, List.getElem?_eq_getElem hlt]
    · intro hlen
      rw [hmain]
      have hnot : ¬ (Split (TrimSpace
          (env (tr ++ [lsscsiCmd, multipathCmd raw]) (lsblkCmd raw)).out) '\n').length > 1 := by
        omega
      simp [hnot]
  · intro hfail
    have hm : (isMultipath env (tr ++ [lsscsiCmd]) raw).1 = false := by
      unfold isMultipath
      simp only [CombinedOutput]
      rcases hfail with herr | hout
      · cases he : (env (tr ++ [lsscsiCmd]) (multipathCmd raw)).err with
        | none => exact absurd he herr
        | some e => rfl
      · cases he : (env (tr ++ [lsscsiCmd]) (multipathCmd raw)).err with
        | none => simp [hout]
        | some e => rfl
    rw [hmain, hm]
    simp

theorem GetBlkDevice_resolves_witness :
    GetBlkDevice envMultipath [] "iqn.test:disk1" =
      some (("/dev/mapper/mpatha", none),
        [lsscsiCmd, multipathCmd "/dev/sdb", lsblkCmd "/dev/sdb"]) ∧
    GetBlkDevice (envLsscsi "[1:0:0:0] disk iqn.test:disk1,t,0x1 /dev/sdb") [] "iqn.test:disk1" =
      some (("/dev/sdb", none), [lsscsiCmd, multipathCmd "/dev/sdb"]) := by
  refine ⟨?_, ?_⟩
  · have h := (GetBlkDevice_resolves envMultipath [] "iqn.test:disk1"
      "[1:0:0:0] disk iqn.test:disk1,t,0x1 /dev/sdb" "/dev/sdb" rfl
      (fun e _ he => Fields_ne_nil_of_contains "iqn.test:disk1" e ⟨'i', by decide, by decide⟩ he)
      (by decide) (by decide)).1 (by decide) (by decide) (by decide)
    obtain ⟨second, hsecond, hres⟩ := h.1 (by decide)
    have hs : second = "mpatha" := by
      have h2 : (Split (TrimSpace
          (envMultipath ([] ++ [lsscsiCmd, multipathCmd "/dev/sdb"]) (lsblkCmd "/dev/sdb")).out)
          '\n')[1]? = some "mpatha" := by decide
      rw [h2] at hsecond
      exact (Option.some.inj hsecond).symm
    rw [hres, hs]
    rfl
  · have h := (GetBlkDevice_resolves (envLsscsi "[1:0:0:0] disk iqn.test:disk1,t,0x1 /dev/sdb") []
      "iqn.test:disk1" "[1:0:0:0] disk iqn.test:disk1,t,0x1 /dev/sdb" "/dev/sdb" rfl
      (fun e _ he => Fields_ne_nil_of_contains "iqn.test:disk1" e ⟨'i', by decide, by decide⟩ he)
      (by decide) (by decide)).2 (Or.inl (by decide))
    rw [h]
    rfl

/-! ## Properties of GetBlkDevice on byte strings -/

theorem decodeValid_width (s : GoBytes) (r n : Nat) (h : decodeValid s = some (r, n)) :
    1 ≤ n ∧ n ≤ s.length := by
  rcases s with _ | ⟨b0, _ | ⟨b1, _ | ⟨b2, _ | ⟨b3, rest⟩⟩⟩⟩ <;>
    simp only [decodeValid] at h <;> (try split_ifs at h) <;>
    simp_all <;> omega

theorem decodeValid_append (e b : GoBytes) (p : Nat × Nat) (h : decodeValid e = some p) :
    decodeValid (e ++ b) = some p := by
  rcases e with _ | ⟨b0, _ | ⟨b1, _ | ⟨b2, _ | ⟨b3, rest⟩⟩⟩⟩ <;>
    simp only [decodeValid, List.cons_append, List.nil_append] at h ⊢ <;>
    (try split_ifs at h ⊢) <;> simp_all

theorem decodeValid_shape (s : GoBytes) (r n : Nat) (h : decodeValid s = some (r, n)) :
    n = 1 ∨
    (∃ b0 b1 rest, s = b0 :: b1 :: rest ∧ n = 2 ∧ isCont b1 = true) ∨
    (∃ b0 b1 b2 rest, s = b0 :: b1 :: b2 :: rest ∧ n = 3 ∧ isCont b1 = true ∧
      isCont b2 = true) ∨
    (∃ b0 b1 b2 b3 rest, s = b0 :: b1 :: b2 :: b3 :: rest ∧ n = 4 ∧ isCont b1 = true ∧
      isCont b2 = true ∧ isCont b3 = true) := by
  rcases s with _ | ⟨b0, _ | ⟨b1, _ | ⟨b2, _ | ⟨b3, rest⟩⟩⟩⟩ <;>
    simp only [decodeValid] at h <;> (try split_ifs at h) <;> (try (simp at h)) <;>
    first
    | (left; omega)
    | (right; left; refine ⟨_, _, _, rfl, by omega, ?_⟩; simp_all [isCont])
    | (right; right; left; refine ⟨_, _, _, _, rfl, by omega, ?_, ?_⟩ <;>
        simp_all [isCont] <;> omega)
    | (right; right; right; refine ⟨_, _, _, _, _, rfl, by omega, ?_, ?_, ?_⟩ <;>
        simp_all [isCont] <;> omega)

theorem decodeValid_cont (s : GoBytes) (r n : Nat) (h : decodeValid s = some (r, n)) :
    ∀ i, 1 ≤ i → i < n → ∃ c, s[i]? = some c ∧ isCont c = true := by
  intro i hi1 hin
  rcases decodeValid_shape s r n h with h1 | ⟨b0, b1, rest, rfl, hn, hc1⟩ |
    ⟨b0, b1, b2, rest, rfl, hn, hc1, hc2⟩ | ⟨b0, b1, b2, b3, rest, rfl, hn, hc1, hc2, hc3⟩
  · omega
  · have : i = 1 := by omega
    subst this
    exact ⟨b1, by simp, hc1⟩
  · have : i = 1 ∨ i = 2 := by omega
    rcases this with rfl | rfl
    · exact ⟨b1, by simp, hc1⟩
    · exact ⟨b2, by simp, hc2⟩
  · have : i = 1 ∨ i = 2 ∨ i = 3 := by omega
    rcases this with rfl | rfl | rfl
    · exact ⟨b1, by simp, hc1⟩
    · exact ⟨b2, by simp, hc2⟩
    · exact ⟨b3, by simp, hc3⟩

theorem decodeValid_of_cont (c : UInt8) (rest : GoBytes) (hc : isCont c = true) :
    decodeValid (c :: rest) = none := by
  simp only [isCont, Bool.and_eq_true, decide_eq_true_eq] at hc
  simp only [decodeValid]
  split_ifs <;> first | rfl | omega

theorem DecodeRune_width (s : GoBytes) (hs : s ≠ []) :
    1 ≤ (DecodeRune s).2 ∧ (DecodeRune s).2 ≤ s.length := by
  cases s with
  | nil => exact absurd rfl hs
  | cons b rest =>
    simp only [DecodeRune]
    cases h : decodeValid (b :: rest) with
    | none => simp
    | some p =>
      obtain ⟨r, n⟩ := p
      simpa using decodeValid_width _ r n h

theorem DecodeRune_space (s : GoBytes) (h : isSpaceRune (DecodeRune s).1 = true) (hs : s ≠ []) :
    decodeValid s = some (DecodeRune s) := by
  cases s with
  | nil => exact absurd rfl hs
  | cons b rest =>
    simp only [DecodeRune] at h ⊢
    cases hd : decodeValid (b :: rest) with
    | none =>
      rw [hd] at h
      simp [isSpaceRune] at h
    | some p => simp

theorem fieldsBytesAux_cur (fuel : Nat) : ∀ (cur s : GoBytes), cur ≠ [] →
    fieldsBytesAux fuel cur s ≠ [] := by
  induction fuel with
  | zero => intro cur s h; simp [fieldsBytesAux, h]
  | succ fuel ih =>
    intro cur s h
    cases s with
    | nil => simp [fieldsBytesAux, h]
    | cons x xs =>
      simp only [fieldsBytesAux]
      split_ifs
      · simp
      · exact ih _ _ (by simp [h])

theorem fieldsBytesAux_rune (fuel : Nat) : ∀ (s cur a e b : GoBytes) (r : Nat),
    s.length ≤ fuel → s = a ++ e ++ b → decodeValid e = some (r, e.length) →
    isSpaceRune r = false → fieldsBytesAux fuel cur s ≠ [] := by
  induction fuel with
  | zero =>
    intro s cur a e b r hlen hs he _
    have hwidth := decodeValid_width e r e.length he
    have : s.length = a.length + e.length + b.length := by rw [hs]; simp; omega
    omega
  | succ fuel ih =>
    intro s cur a e b r hlen hs he hr
    have hwidth := decodeValid_width e r e.length he
    have hslen : s.length = a.length + e.length + b.length := by rw [hs]; simp; omega
    cases hsx : s with
    | nil => rw [hsx] at hslen; simp at hslen; omega
    | cons x xs =>
      have hne : x :: xs ≠ [] := by simp
      have hw := DecodeRune_width (x :: xs) hne
      simp only [fieldsBytesAux]
      by_cases hsp : isSpaceRune (DecodeRune (x :: xs)).1 = true
      · simp only [hsp, if_true]
        by_cases hcur : cur = []
        · simp only [hcur, if_true]
          have hdec := DecodeRune_space (x :: xs) hsp hne
          rw [← hsx] at hdec hw hsp ⊢
          by_cases hn : (DecodeRune s).2 ≤ a.length
          · refine ih (s.drop (DecodeRune s).2) [] (a.drop (DecodeRune s).2) e b r ?_ ?_ he hr
            · simp only [List.length_drop]; omega
            · have key : ∀ n, n ≤ a.length → (a ++ e ++ b).drop n = a.drop n ++ e ++ b := by
                intro n hna
                rw [List.append_assoc, List.drop_append_of_le_length hna, List.append_assoc]
              have hkey := key _ hn
              rw [← hs] at hkey
              exact hkey
          · exfalso
            by_cases ha : a.length = 0
            · have ha' : a = [] := List.length_eq_zero.mp ha
              rw [ha', List.nil_append] at hs
              have := decodeValid_append e b _ he
              rw [← hs, hdec] at this
              have h1 : (DecodeRune s).1 = r := by
                have := congrArg (fun o => o.map Prod.fst) this
                simpa using this
              rw [h1, hr] at hsp
              cases hsp
            · cases he' : e with
              | nil => rw [he'] at hwidth; simp at hwidth
              | cons c e' =>
                have hidx : s[a.length]? = some c := by
                  rw [hs, he', List.append_assoc, List.getElem?_append_right (le_refl _)]
                  simp
                obtain ⟨c', hc', hcont⟩ := decodeValid_cont s _ _
                  (by rw [hdec]) a.length (by omega) (by omega)
                rw [hidx] at hc'
                cases hc'
                have := decodeValid_of_cont c e' hcont
                rw [← he', he] at this
                cases this
        · simp [hcur]
      · simp only [hsp]
        exact fieldsBytesAux_cur fuel _ _ (by
          intro hnil
          have h1 := congrArg List.length hnil
          simp at h1
          omega)

theorem decodeValid_take (s : GoBytes) (r n : Nat) (h : decodeValid s = some (r, n)) :
    decodeValid (s.take n) = some (r, n) := by
  rcases s with _ | ⟨b0, _ | ⟨b1, _ | ⟨b2, _ | ⟨b3, rest⟩⟩⟩⟩ <;>
    simp only [decodeValid] at h <;> (try split_ifs at h) <;> (try simp at h) <;>
    (try (obtain ⟨rfl, rfl⟩ := h)) <;>
    simp only [List.take_succ_cons, List.take_zero, List.take_nil, decodeValid] <;>
    (try split_ifs) <;> simp_all

theorem valid_rune_inside (fuel : Nat) : ∀ s : GoBytes, validAux fuel s = true →
    (∃ r ∈ runesAux fuel s, isSpaceRune r = false) →
    ∃ e r, e <:+: s ∧ decodeValid e = some (r, e.length) ∧ isSpaceRune r = false := by
  induction fuel with
  | zero => intro s _ h; simp [runesAux] at h
  | succ fuel ih =>
    intro s hv hr
    cases s with
    | nil => simp [runesAux] at hr
    | cons x xs =>
      simp only [validAux] at hv
      cases hd : decodeValid (x :: xs) with
      | none => rw [hd] at hv; cases hv
      | some p =>
        obtain ⟨r0, n0⟩ := p
        rw [hd] at hv
        have hw := decodeValid_width _ r0 n0 hd
        have hrune : DecodeRune (x :: xs) = (r0, n0) := by simp [DecodeRune, hd]
        simp only [runesAux, hrune, List.mem_cons] at hr
        obtain ⟨r, hmem, hsp⟩ := hr
        rcases hmem with rfl | hmem
        · refine ⟨(x :: xs).take n0, r, (List.take_prefix _ _).isInfix, ?_, hsp⟩
          have hlen : ((x :: xs).take n0).length = n0 := by
            rw [List.length_take]; omega
          rw [hlen]
          exact decodeValid_take _ r n0 hd
        · obtain ⟨e, r', hin, he, hsp'⟩ := ih ((x :: xs).drop n0) hv ⟨r, hmem, hsp⟩
          exact ⟨e, r', hin.trans (List.drop_suffix _ _).isInfix, he, hsp'⟩

theorem FieldsBytes_ne_nil (d l : GoBytes)
    (hd : ∃ e r, e <:+: d ∧ decodeValid e = some (r, e.length) ∧ isSpaceRune r = false)
    (hl : ContainsBytes l d = true) : FieldsBytes l ≠ [] := by
  obtain ⟨e, r, hed, he, hr⟩ := hd
  have hdl : d <:+: l := by simpa [ContainsBytes] using hl
  obtain ⟨a, b, hab⟩ := hed.trans hdl
  exact fieldsBytesAux_rune l.length l [] a e b r (le_refl _) hab.symm he hr

theorem lastFieldBytes_eq_getLast? (fields : List GoBytes) :
    lastFieldBytes fields = fields.getLast? := by
  unfold lastFieldBytes
  by_cases h : fields.length = 0
  · have : fields = [] := List.length_eq_zero.mp h
    subst this; simp
  · simp [h, List.getLast?_eq_getElem?]

theorem scanEntriesBytes_isSome (d : GoBytes) : ∀ (ls : List GoBytes) (b : GoBytes),
    (∀ e ∈ ls, ContainsBytes e d = true → FieldsBytes e ≠ []) →
    ∃ r, scanEntriesBytes d ls b = some r := by
  intro ls
  induction ls with
  | nil => intro b _; exact ⟨b, rfl⟩
  | cons e rest ih =>
    intro b hfields
    have hrest : ∀ e' ∈ rest, ContainsBytes e' d = true → FieldsBytes e' ≠ [] :=
      fun e' he' => hfields e' (List.mem_cons_of_mem e he')
    unfold scanEntriesBytes
    by_cases he : ContainsBytes e d = true
    · simp only [he, if_true]
      have hne : FieldsBytes e ≠ [] := hfields e (List.mem_cons_self e rest) he
      rw [lastFieldBytes_eq_getLast?]
      cases hf : (FieldsBytes e).getLast? with
      | none => exact absurd (List.getLast?_eq_none_iff.mp hf) hne
      | some f => exact ih f hrest
    · have he' : ContainsBytes e d = false := by simpa using he
      simp only [he']
      exact ih b hrest

/-- C10, as stated, fails: the identifier made of the single byte `0xA0` has one
character, which Go decodes as `U+FFFD` and which is not white space; the line
`0xC2 0xA0` (the no-break space) contains that byte and has no field, and on the
output `a`, that line, `b`, the index of `GetBlkDevice` is out of range. -/
theorem GetBlkDeviceBytes_counterexample :
    runes [0xA0] = [0xFFFD] ∧ isSpaceRune 0xFFFD = false ∧
    ContainsBytes [0xC2, 0xA0] [0xA0] = true ∧
    FieldsBytes [0xC2, 0xA0] = [] ∧
    lastFieldBytes (FieldsBytes [0xC2, 0xA0]) = none ∧
    splitBytes 0x0A (TrimSpaceBytes (ascii "a\n" ++ [0xC2, 0xA0] ++ ascii "\nb")) =
      [ascii "a", [0xC2, 0xA0], ascii "b"] ∧
    GetBlkDeviceBytes (byteEnvLsscsi (ascii "a\n" ++ [0xC2, 0xA0] ++ ascii "\nb")) [] [0xA0] =
      none := by
  decide

theorem GetBlkDeviceBytes_safe (d : GoBytes)
    (hd : ∃ e r, e <:+: d ∧ decodeValid e = some (r, e.length) ∧ isSpaceRune r = false) :
    (∀ l : GoBytes, ContainsBytes l d = true → ∃ f, lastFieldBytes (FieldsBytes l) = some f) ∧
    (∀ (env : ByteEnv) (tr : List ByteCmd), ∃ res, GetBlkDeviceBytes env tr d = some res) := by
  have hall : ∀ l : GoBytes, ContainsBytes l d = true → FieldsBytes l ≠ [] :=
    fun l hl => FieldsBytes_ne_nil d l hd hl
  refine ⟨?_, ?_⟩
  · intro l hl
    rw [lastFieldBytes_eq_getLast?]
    cases hf : (FieldsBytes l).getLast? with
    | none => exact absurd (List.getLast?_eq_none_iff.mp hf) (hall l hl)
    | some f => exact ⟨f, rfl⟩
  · intro env tr
    unfold GetBlkDeviceBytes
    simp only
    cases hls : (env tr lsscsiByteCmd).err with
    | some e => exact ⟨_, rfl⟩
    | none =>
      obtain ⟨blk, hblk⟩ := scanEntriesBytes_isSome d
        (splitBytes 0x0A (TrimSpaceBytes (env tr lsscsiByteCmd).out)) [] (fun e _ he => hall e he)
      simp only [hblk]
      split
      · exact ⟨_, rfl⟩
      · split
        · split
          · exact ⟨_, rfl⟩
          · split
            · rename_i hlen
              split
              · rename_i hnone
                have := List.getElem?_eq_none_iff.mp hnone
                omega
              · exact ⟨_, rfl⟩
            · exact ⟨_, rfl⟩
        · exact ⟨_, rfl⟩

/-- C10, amended: when `d` contains the UTF-8 encoding of a character that is not
white space (as it does when `d` is valid UTF-8 and has a character that is not
white space), every line that contains `d` has a field, so the access
`fields[len(fields)-1]` of `GetBlkDevice` is in range and `GetBlkDevice(d)`
returns, whatever the commands answer; without that condition the access can be
out of range: for `d` empty and an empty or blank `lsscsi` output the matching
line has no field. -/
theorem GetBlkDeviceBytes_index_in_range :
    (∀ d : GoBytes,
      (∃ e r, e <:+: d ∧ decodeValid e = some (r, e.length) ∧ isSpaceRune r = false) →
      (∀ l : GoBytes, ContainsBytes l d = true → ∃ f, lastFieldBytes (FieldsBytes l) = some f) ∧
      (∀ (env : ByteEnv) (tr : List ByteCmd), ∃ res, GetBlkDeviceBytes env tr d = some res)) ∧
    (∀ d : GoBytes, ValidString d = true → (∃ r ∈ runes d, isSpaceRune r = false) →
      (∀ l : GoBytes, ContainsBytes l d = true → ∃ f, lastFieldBytes (FieldsBytes l) = some f) ∧
      (∀ (env : ByteEnv) (tr : List ByteCmd), ∃ res, GetBlkDeviceBytes env tr d = some res)) ∧
    (ContainsBytes [] [] = true ∧ FieldsBytes [] = [] ∧ lastFieldBytes (FieldsBytes []) = none ∧
      GetBlkDeviceBytes (byteEnvLsscsi []) [] [] = none ∧
      GetBlkDeviceBytes (byteEnvLsscsi (ascii " \n \n")) [] [] = none) := by
  refine ⟨?_, ?_, by decide⟩
  · intro d hd
    exact GetBlkDeviceBytes_safe d hd
  · intro d hv hr
    exact GetBlkDeviceBytes_safe d (valid_rune_inside d.length d hv hr)

theorem GetBlkDeviceBytes_index_in_range_witness :
    (∃ f, lastFieldBytes (FieldsBytes (ascii "[1:0:0:0] disk iqn.test:disk1 /dev/sdb")) = some f) ∧
    (∃ res, GetBlkDeviceBytes
      (byteEnvLsscsi (ascii "[1:0:0:0] disk iqn.test:disk1 /dev/sdb\n")) []
      (ascii "iqn.test:disk1") = some res) ∧
    (∃ res, GetBlkDeviceBytes (byteEnvLsscsi [0x61, 0x0A, 0xC3, 0xA9, 0x20, 0x62]) []
      [0xC3, 0xA9] = some res) :=
  ⟨(GetBlkDeviceBytes_index_in_range.1 (ascii "iqn.test:disk1")
      ⟨[0x69], 0x69, by decide, by decide, by decide⟩).1
      (ascii "[1:0:0:0] disk iqn.test:disk1 /dev/sdb") (by decide),
   (GetBlkDeviceBytes_index_in_range.1 (ascii "iqn.test:disk1")
      ⟨[0x69], 0x69, by decide, by decide, by decide⟩).2
      (byteEnvLsscsi (ascii "[1:0:0:0] disk iqn.test:disk1 /dev/sdb\n")) [],
   (GetBlkDeviceBytes_index_in_range.2.1 [0xC3, 0xA9] (by decide)
      ⟨0xE9, by decide, by decide⟩).2
      (byteEnvLsscsi [0x61, 0x0A, 0xC3, 0xA9, 0x20, 0x62]) []⟩

end Switchboard
